import Mathlib

/-!
Shallow embedding of the uni-lang interpreter (lexer, parser, evaluator)
from the Go sources: `src/unnamed/part_001` (lexer, token definitions),
`src/unnamed/part_002` (parser), `src/3_eval.go` (scopes and evaluator).

Modelling conventions:
* Go `int64` values are modelled as unbounded `Int`; no claim under
  consideration exercises 64-bit overflow.
* Go `float64` values are modelled as exact rationals (`Rat`); no claim
  depends on IEEE-754 rounding, infinities or NaN — the claims about floats
  concern only dispatch and int-to-float promotion, which are structural.
* Go `int` (the host integer type produced by `len` and `range` indices) is
  kept as a distinct runtime variant from `int64`, exactly as the Go
  evaluator's type switches distinguish them.
* Go channels (token and statement pipelines) are sequential pull pipelines
  with no parallelism; they are modelled as lists produced in order.
* Go runtime panics reachable from the evaluator (failed type assertions,
  integer division by zero, out-of-range slice index, unhashable map key)
  are modelled as `EvalErr.fault` results.
* Mutable scopes reachable through parent pointers are modelled as the list
  of frames of the current chain (innermost first); every scope creation in
  the source parents the current scope, so the chain at any program point is
  exactly such a list, and mutation is modelled by returning the updated
  chain.
* Recursion in the source (while loops, recursive function calls) is made
  total with an explicit fuel parameter; exhausting fuel is the distinct
  `EvalErr.timeout` outcome, never confused with program behaviour.
-/

namespace Uni

/-! ## Tokens (src/unnamed/part_001) -/

/-- Token kinds. Go represents `TokenType` as a string; the extra
constructor `unknown` stands for Go's zero value `""`, which the parser's
token buffer takes after the token channel is closed. -/
inductive TokenType where
  | ILLEGAL | EOF
  | COMMA | COLON | LPAREN | RPAREN | LBRACKET | RBRACKET | LCURLY | RCURLY
  | IDENT | INT | FLOAT | STRING
  | TRUE | FALSE | VAR | IF | ELSE | WHILE | FOR | IN | FN | RETURN
  | LEN | PRINT | PRINTLN
  | ASSIGN | PLUS | MINUS | ASTERISK | SLASH | NOT
  | LT | GT | LEQ | GEQ | EQ | NEQ | OR | AND
  | unknown
  deriving DecidableEq, Repr

structure Token where
  Ty : TokenType
  Value : String
  deriving DecidableEq, Repr

def NewToken (t : TokenType) (v : String) : Token := ⟨t, v⟩

/-- Go's zero value `Token{}`, received from a closed token channel. -/
def zeroToken : Token := ⟨TokenType.unknown, ""⟩

/-! ## Lexer (src/unnamed/part_001) -/

def quoteChar : Char := Char.ofNat 34

def hashChar : Char := Char.ofNat 35

/-- Keyword table of `lexIdentifier`. -/
def keywordType (v : String) : Option TokenType :=
  if v = "true" then some .TRUE
  else if v = "false" then some .FALSE
  else if v = "var" then some .VAR
  else if v = "if" then some .IF
  else if v = "else" then some .ELSE
  else if v = "while" then some .WHILE
  else if v = "for" then some .FOR
  else if v = "in" then some .IN
  else if v = "fn" then some .FN
  else if v = "return" then some .RETURN
  else if v = "len" then some .LEN
  else if v = "print" then some .PRINT
  else if v = "println" then some .PRINTLN
  else if v = "or" then some .OR
  else if v = "and" then some .AND
  else none

/-- Body of `lexIdentifier`: collect letters and digits after the first rune. -/
def lexIdentifierAux : List Char → String → String × List Char
  | [], v => (v, [])
  | c :: cs, v =>
    if c.isAlpha || c.isDigit then lexIdentifierAux cs (v.push c)
    else (v, c :: cs)

def lexIdentifier (r : Char) (cs : List Char) : Token × List Char :=
  let (v, rest) := lexIdentifierAux cs (String.singleton r)
  match keywordType v with
  | some t => (NewToken t v, rest)
  | none => (NewToken .IDENT v, rest)

/-- Body of `lexNumber`: collect digits and dots; any dot switches the token
kind to FLOAT. -/
def lexNumberAux : List Char → String → TokenType → (TokenType × String) × List Char
  | [], v, t => ((t, v), [])
  | c :: cs, v, t =>
    if c.isDigit || c = '.' then
      lexNumberAux cs (v.push c) (if c = '.' then .FLOAT else t)
    else ((t, v), c :: cs)

def lexNumber (r : Char) (cs : List Char) : Token × List Char :=
  let ((t, v), rest) := lexNumberAux cs (String.singleton r) .INT
  (NewToken t v, rest)

/-- Body of `lexString`: `ReadString` collects up to and including the next
quote (or to end of input), then trailing quotes are trimmed. -/
def lexStringAux : List Char → String → String × List Char
  | [], v => (v, [])
  | c :: cs, v =>
    if c = quoteChar then (v.push c, cs) else lexStringAux cs (v.push c)

def trimRightQuotes (s : String) : String :=
  ⟨s.data.reverse.dropWhile (· = quoteChar) |>.reverse⟩

def lexString (cs : List Char) : Token × List Char :=
  let (v, rest) := lexStringAux cs ""
  (NewToken .STRING (trimRightQuotes v), rest)

/-- Symbol table of `lexSymbol` for single-character symbols. -/
def singleSymbolType (c : Char) : Option TokenType :=
  if c = ',' then some .COMMA
  else if c = ':' then some .COLON
  else if c = '(' then some .LPAREN
  else if c = ')' then some .RPAREN
  else if c = '[' then some .LBRACKET
  else if c = ']' then some .RBRACKET
  else if c = Char.ofNat 123 then some .LCURLY
  else if c = Char.ofNat 125 then some .RCURLY
  else if c = '=' then some .ASSIGN
  else if c = '+' then some .PLUS
  else if c = '-' then some .MINUS
  else if c = '*' then some .ASTERISK
  else if c = '/' then some .SLASH
  else if c = '!' then some .NOT
  else if c = '<' then some .LT
  else if c = '>' then some .GT
  else none

/-- Symbol table of `lexSymbol` for two-character symbols. -/
def doubleSymbolType (c d : Char) : Option TokenType :=
  if c = '<' && d = '=' then some .LEQ
  else if c = '>' && d = '=' then some .GEQ
  else if c = '=' && d = '=' then some .EQ
  else if c = '!' && d = '=' then some .NEQ
  else none

/-- Go `lexSymbol`: try the two-character symbol first, then the
single-character one, else an ILLEGAL token. -/
def lexSymbol (r : Char) (cs : List Char) : Token × List Char :=
  match cs with
  | d :: cs2 =>
    match doubleSymbolType r d with
    | some t => (NewToken t (String.singleton r |>.push d), cs2)
    | none =>
      match singleSymbolType r with
      | some t => (NewToken t (String.singleton r), cs)
      | none => (NewToken .ILLEGAL (String.singleton r), cs)
  | [] =>
    match singleSymbolType r with
    | some t => (NewToken t (String.singleton r), cs)
    | none => (NewToken .ILLEGAL (String.singleton r), cs)

/-- Go `lexWhitespace`: skip blanks; a hash starts a comment running to the
end of the line (the newline is consumed too). The boolean is the
in-comment mode. -/
def lexWhitespace : Bool → List Char → List Char
  | _, [] => []
  | true, c :: cs => if c = '\n' then lexWhitespace false cs else lexWhitespace true cs
  | false, c :: cs =>
    if c = ' ' || c = '\t' || c = '\n' || c = '\r' then lexWhitespace false cs
    else if c = hashChar then lexWhitespace true cs
    else c :: cs

/-- Main loop of `Lexer.Lex`. An ILLEGAL token is a fatal condition
(`log.Fatalf` in the source), modelled as `Except.error`. Fuel only bounds
the loop; `cs.length + 1` always suffices since every token consumes at
least one character. -/
def lexLoop : Nat → List Char → Except String (List Token)
  | 0, _ => throw "lexer out of fuel"
  | fuel + 1, cs =>
    match lexWhitespace false cs with
    | [] => pure [NewToken .EOF ""]
    | c :: rest =>
      let (tok, rest2) :=
        if c = quoteChar then lexString rest
        else if c.isDigit then lexNumber c rest
        else if c.isAlpha then lexIdentifier c rest
        else lexSymbol c rest
      if tok.Ty = .ILLEGAL then throw "invalid token found"
      else do
        let toks ← lexLoop fuel rest2
        pure (tok :: toks)

/-- Go `Lexer.Lex` on a source string: the produced token stream. -/
def runLex (source : String) : Except String (List Token) :=
  lexLoop (source.data.length + 1) source.data

/-! ## AST (src/unnamed/part_002) -/

structure Identifier where
  Tok : Token
  IsFunctionCall : Bool
  deriving DecidableEq, Repr

/-- Expression nodes. `ENil` stands for Go's nil `Expression` interface
value, which the parser produces when no parse function matches; the
evaluator's default case maps it to no value. -/
inductive Expr where
  | ENil
  | EBoolean (Value : Bool)
  | EInteger (Value : Int)
  | EFloat (Value : Rat)
  | EString (Value : String)
  | EArray (Items : List Expr)
  | EMap (Items : List (Expr × Expr))
  | EIndex (Index : Expr) (Subject : Expr)
  | ECall (Ident : Identifier) (Arguments : List Expr)
  | EIdentifier (Id : Identifier)
  | EUnaryOperation (Tok : Token) (Expression : Expr)
  | EBinaryOperation (Tok : Token) (Left : Expr) (Right : Expr)
  | ELen (Subject : Expr)
  | EPrint (Args : List Expr) (IsNewLine : Bool)
  deriving Repr

/-- Statement nodes. A `Block` in the source is just a list of statements;
`SNil` stands for a Go nil `Statement` appended by `parseBlock` when a
nested statement fails to parse (the evaluator skips nil statements). -/
inductive Stmt where
  | SNil
  | SVariable (Name : Identifier) (Value : Expr) (IsNew : Bool)
  | SIf (Condition : Expr) (Consequence : List Stmt) (Alternative : Option (List Stmt))
  | SWhile (Condition : Expr) (Consequence : List Stmt)
  | SFor (Key : Identifier) (Value : Identifier) (Condition : Expr) (Consequence : List Stmt)
  | SFunction (Name : Identifier) (Parameters : List Identifier) (Body : List Stmt)
  | SReturn (Value : Expr)
  | SBlock (Statements : List Stmt)
  | SExpression (e : Expr)
  deriving Repr

/-- Go stores possibly-nil `Expression` interface values in AST fields;
`orNil` converts the parser's optional result into such a field. -/
def orNil (e : Option Expr) : Expr := e.getD .ENil

/-! ## Parser (src/unnamed/part_002) -/

/-- Precedence levels, `iota + 1` in the source. The top level (unary
operators) is named `PrefixLevel` here. -/
def LOWEST : Nat := 1
def EQUALS : Nat := 2
def BOOLOP : Nat := 3
def GREATER : Nat := 4
def SUM : Nat := 5
def PRODUCT : Nat := 6
def PrefixLevel : Nat := 7

/-- Go `getPrecedence`: the precedence table; tokens not in the table get
LOWEST. -/
def getPrecedence (t : TokenType) : Nat :=
  match t with
  | .EQ => EQUALS
  | .NEQ => EQUALS
  | .OR => BOOLOP
  | .AND => BOOLOP
  | .LT => GREATER
  | .GT => GREATER
  | .LEQ => GREATER
  | .GEQ => GREATER
  | .PLUS => SUM
  | .MINUS => SUM
  | .ASTERISK => PRODUCT
  | .SLASH => PRODUCT
  | _ => LOWEST

/-- Parser state: the two-token lookahead buffer plus the not-yet-pulled
tokens of the channel. -/
structure Parser where
  currentToken : Token
  peekToken : Token
  rest : List Token
  deriving DecidableEq, Repr

/-- Go `Parser.next`: shift the buffer; a receive from the closed channel
yields the zero token. -/
def Parser.next (p : Parser) : Parser :=
  match p.rest with
  | [] => ⟨p.peekToken, zeroToken, []⟩
  | t :: ts => ⟨p.peekToken, t, ts⟩

inductive ParseErr where
  | expected (tts : List TokenType) (got : TokenType)
  | timeout
  deriving DecidableEq, Repr

/-- Go `expectCurrent`: on a mismatch the source calls `log.Fatalf`
(process abort) before recording the error, so a mismatch is a fatal
condition. -/
def expectCurrent (p : Parser) (tts : List TokenType) : Except ParseErr Unit :=
  if p.currentToken.Ty ∈ tts then pure () else throw (.expected tts p.currentToken.Ty)

/-- Go `parseIdentifier`: requires an IDENT; `IsFunctionCall` records
whether the next token is an opening parenthesis. -/
def parseIdentifier (p : Parser) : Except ParseErr (Identifier × Parser) := do
  expectCurrent p [.IDENT]
  pure (⟨p.currentToken, p.peekToken.Ty == .LPAREN⟩, p.next)

/-- Go `strconv.ParseBool` restricted to the strings it accepts (the error
case leaves the zero value false, as the source ignores the error). -/
def parseBoolValue (v : String) : Bool :=
  v = "1" || v = "t" || v = "T" || v = "true" || v = "TRUE" || v = "True"

def parseBoolean (p : Parser) : Except ParseErr (Expr × Parser) := do
  expectCurrent p [.TRUE, .FALSE]
  pure (.EBoolean (parseBoolValue p.currentToken.Value), p.next)

/-- Go `strconv.ParseInt(v, 10, 64)` on a lexer-produced INT literal (all
digits): the numeric value, clamped to the int64 range as `ParseInt` does on
a range error (the source ignores the error and keeps the clamped value). -/
def parseIntValue (v : String) : Int :=
  let n : Nat := v.data.foldl (fun acc c => acc * 10 + (c.toNat - 48)) 0
  if (n : Int) > (2 : Int) ^ 63 - 1 then (2 : Int) ^ 63 - 1 else (n : Int)

def parseInteger (p : Parser) : Except ParseErr (Expr × Parser) := do
  expectCurrent p [.INT]
  pure (.EInteger (parseIntValue p.currentToken.Value), p.next)

/-- Go `strconv.ParseFloat` on a lexer-produced FLOAT literal, modelled
exactly on the shapes the lexer can emit: digits with dots. A literal with
a single dot denotes the obvious decimal; any other shape is a parse error,
which the source ignores, leaving the zero value 0. -/
def parseFloatValue (v : String) : Rat :=
  match v.split (· = '.') with
  | [intPart, fracPart] =>
    let ip : Nat := intPart.data.foldl (fun acc c => acc * 10 + (c.toNat - 48)) 0
    let fp : Nat := fracPart.data.foldl (fun acc c => acc * 10 + (c.toNat - 48)) 0
    (ip : Rat) + (fp : Rat) / ((10 : Rat) ^ fracPart.length)
  | _ => 0

def parseFloat (p : Parser) : Except ParseErr (Expr × Parser) := do
  expectCurrent p [.FLOAT]
  pure (.EFloat (parseFloatValue p.currentToken.Value), p.next)

def parseString (p : Parser) : Except ParseErr (Expr × Parser) := do
  expectCurrent p [.STRING]
  pure (.EString p.currentToken.Value, p.next)

/-! Mutually recursive parsing functions. Each takes a fuel argument and
consumes one unit per call; exhausting fuel models the source's
non-termination on malformed input (the Go `parseBlock` loop spins forever
when a nested statement fails to parse without consuming tokens). The
primary-expression switch of Go `parseExpression` is factored out as
`parsePrimary`, whose `none` result is the switch's default case: the
source records an error and returns nil immediately, skipping the infix
loop. -/

mutual

def parseStatement : Nat → Parser → Except ParseErr (Option Stmt × Parser)
  | 0, _ => throw .timeout
  | fuel + 1, p =>
    match p.currentToken.Ty with
    | .VAR => parseVariable fuel p
    | .IF => parseIf fuel p
    | .WHILE => parseWhile fuel p
    | .FOR => parseFor fuel p
    | .FN => parseFunction fuel p
    | .RETURN => parseReturn fuel p
    | .LCURLY => do
      let (b, p) ← parseBlock fuel p
      pure (some (.SBlock b), p)
    | .IDENT =>
      if p.peekToken.Ty == .ASSIGN then parseVariable fuel p
      else do
        let (eOpt, p) ← parseExpression fuel LOWEST p
        pure (eOpt.map .SExpression, p)
    | _ => do
      let (eOpt, p) ← parseExpression fuel LOWEST p
      pure (eOpt.map .SExpression, p)

def parseVariable : Nat → Parser → Except ParseErr (Option Stmt × Parser)
  | 0, _ => throw .timeout
  | fuel + 1, p => do
    let (isNew, p) := if p.currentToken.Ty == .VAR then (true, p.next) else (false, p)
    let (name, p) ← parseIdentifier p
    expectCurrent p [.ASSIGN]
    let p := p.next
    let (v, p) ← parseExpression fuel LOWEST p
    pure (some (.SVariable name (orNil v) isNew), p)

def parseIf : Nat → Parser → Except ParseErr (Option Stmt × Parser)
  | 0, _ => throw .timeout
  | fuel + 1, p => do
    let p := p.next
    let (cond, p) ← parseExpression fuel LOWEST p
    let (cons, p) ← parseBlock fuel p
    if p.currentToken.Ty == .ELSE then
      let p := p.next
      let (alt, p) ← parseBlock fuel p
      pure (some (.SIf (orNil cond) cons (some alt)), p)
    else
      pure (some (.SIf (orNil cond) cons none), p)

def parseWhile : Nat → Parser → Except ParseErr (Option Stmt × Parser)
  | 0, _ => throw .timeout
  | fuel + 1, p => do
    let p := p.next
    let (cond, p) ← parseExpression fuel LOWEST p
    expectCurrent p [.LCURLY]
    let (body, p) ← parseBlock fuel p
    pure (some (.SWhile (orNil cond) body), p)

def parseFor : Nat → Parser → Except ParseErr (Option Stmt × Parser)
  | 0, _ => throw .timeout
  | fuel + 1, p => do
    let p := p.next
    let (key, p) ← parseIdentifier p
    let (value, p) ←
      if p.currentToken.Ty == .COMMA then do
        let (v, p2) ← parseIdentifier p.next
        pure (v, p2)
      else
        pure (⟨zeroToken, false⟩, p)
    expectCurrent p [.IN]
    let p := p.next
    let (cond, p) ← parseExpression fuel LOWEST p
    expectCurrent p [.LCURLY]
    let (body, p) ← parseBlock fuel p
    pure (some (.SFor key value (orNil cond) body), p)

def parseFunction : Nat → Parser → Except ParseErr (Option Stmt × Parser)
  | 0, _ => throw .timeout
  | fuel + 1, p => do
    let p := p.next
    let (name, p) ← parseIdentifier p
    expectCurrent p [.LPAREN]
    let p := p.next
    let (params, p) ← parseParams fuel p []
    let p := p.next
    expectCurrent p [.LCURLY]
    let (body, p) ← parseBlock fuel p
    pure (some (.SFunction name params body), p)

def parseParams : Nat → Parser → List Identifier → Except ParseErr (List Identifier × Parser)
  | 0, _, _ => throw .timeout
  | fuel + 1, p, acc =>
    if p.currentToken.Ty == .RPAREN then pure (acc, p)
    else do
      let (id, p) ← parseIdentifier p
      let p := if p.currentToken.Ty == .COMMA then p.next else p
      parseParams fuel p (acc ++ [id])

def parseReturn : Nat → Parser → Except ParseErr (Option Stmt × Parser)
  | 0, _ => throw .timeout
  | fuel + 1, p => do
    let p := p.next
    let (v, p) ← parseExpression fuel LOWEST p
    pure (some (.SReturn (orNil v)), p)

def parseBlock : Nat → Parser → Except ParseErr (List Stmt × Parser)
  | 0, _ => throw .timeout
  | fuel + 1, p => do
    let p := p.next
    let (stmts, p) ← parseBlockItems fuel p []
    pure (stmts, p.next)

def parseBlockItems : Nat → Parser → List Stmt → Except ParseErr (List Stmt × Parser)
  | 0, _, _ => throw .timeout
  | fuel + 1, p, acc =>
    if p.currentToken.Ty == .RCURLY then pure (acc, p)
    else do
      let (s, p) ← parseStatement fuel p
      parseBlockItems fuel p (acc ++ [s.getD .SNil])

def parseExpression : Nat → Nat → Parser → Except ParseErr (Option Expr × Parser)
  | 0, _, _ => throw .timeout
  | fuel + 1, prec, p => do
    let r ← parsePrimary fuel p
    match r with
    | none => pure (none, p)
    | some (left, p) => parseBinLoop fuel prec left p

def parsePrimary : Nat → Parser → Except ParseErr (Option (Option Expr × Parser))
  | 0, _ => throw .timeout
  | fuel + 1, p =>
    match p.currentToken.Ty with
    | .TRUE => do let (e, p) ← parseBoolean p; pure (some (some e, p))
    | .FALSE => do let (e, p) ← parseBoolean p; pure (some (some e, p))
    | .INT => do let (e, p) ← parseInteger p; pure (some (some e, p))
    | .FLOAT => do let (e, p) ← parseFloat p; pure (some (some e, p))
    | .STRING => do let (e, p) ← parseString p; pure (some (some e, p))
    | .PLUS => do let r ← parseUnaryOperation fuel p; pure (some r)
    | .MINUS => do let r ← parseUnaryOperation fuel p; pure (some r)
    | .NOT => do let r ← parseUnaryOperation fuel p; pure (some r)
    | .IDENT => do
      let (id, p) ← parseIdentifier p
      match p.currentToken.Ty with
      | .LBRACKET => do let r ← parseIndex fuel (.EIdentifier id) p; pure (some r)
      | .LPAREN => do let r ← parseCall fuel id p; pure (some r)
      | _ => pure (some (some (.EIdentifier id), p))
    | .LPAREN => do
      let p := p.next
      let (e, p) ← parseExpression fuel LOWEST p
      pure (some (e, p.next))
    | .LBRACKET => do let r ← parseArray fuel p; pure (some r)
    | .LCURLY => do let r ← parseMapLit fuel p; pure (some r)
    | .LEN => do let r ← parseLen fuel p; pure (some r)
    | .PRINT => do let r ← parsePrintCall fuel p; pure (some r)
    | .PRINTLN => do let r ← parsePrintCall fuel p; pure (some r)
    | _ => pure none

def parseBinLoop : Nat → Nat → Option Expr → Parser → Except ParseErr (Option Expr × Parser)
  | 0, _, _, _ => throw .timeout
  | fuel + 1, prec, left, p =>
    if prec < getPrecedence p.currentToken.Ty then
      match p.currentToken.Ty with
      | .OR | .AND | .PLUS | .MINUS | .ASTERISK | .SLASH
      | .EQ | .NEQ | .LT | .GT | .LEQ | .GEQ => do
        let (bo, p) ← parseBinaryOperation fuel left p
        parseBinLoop fuel prec (some bo) p
      | _ => pure (none, p)
    else pure (left, p)

def parseBinaryOperation : Nat → Option Expr → Parser → Except ParseErr (Expr × Parser)
  | 0, _, _ => throw .timeout
  | fuel + 1, left, p => do
    let tok := p.currentToken
    let prec := getPrecedence tok.Ty
    let p := p.next
    let (right, p) ← parseExpression fuel prec p
    pure (.EBinaryOperation tok (orNil left) (orNil right), p)

def parseUnaryOperation : Nat → Parser → Except ParseErr (Option Expr × Parser)
  | 0, _ => throw .timeout
  | fuel + 1, p => do
    expectCurrent p [.PLUS, .MINUS, .NOT]
    let tok := p.currentToken
    let p := p.next
    let (e, p) ← parseExpression fuel PrefixLevel p
    pure (some (.EUnaryOperation tok (orNil e)), p)

def parseIndex : Nat → Expr → Parser → Except ParseErr (Option Expr × Parser)
  | 0, _, _ => throw .timeout
  | fuel + 1, left, p => do
    let p := p.next
    let (idx, p) ← parseExpression fuel LOWEST p
    pure (some (.EIndex (orNil idx) left), p.next)

def parseCall : Nat → Identifier → Parser → Except ParseErr (Option Expr × Parser)
  | 0, _, _ => throw .timeout
  | fuel + 1, id, p => do
    let p := p.next
    let (args, p) ← parseCallArgs fuel p []
    pure (some (.ECall id args), p.next)

def parseCallArgs : Nat → Parser → List Expr → Except ParseErr (List Expr × Parser)
  | 0, _, _ => throw .timeout
  | fuel + 1, p, acc =>
    if p.currentToken.Ty == .RPAREN then pure (acc, p)
    else do
      let (arg, p) ← parseExpression fuel LOWEST p
      let p := if p.currentToken.Ty == .COMMA then p.next else p
      parseCallArgs fuel p (acc ++ [orNil arg])

def parseArray : Nat → Parser → Except ParseErr (Option Expr × Parser)
  | 0, _ => throw .timeout
  | fuel + 1, p => do
    let p := p.next
    let (items, p) ← parseArrayItems fuel p []
    pure (some (.EArray items), p.next)

def parseArrayItems : Nat → Parser → List Expr → Except ParseErr (List Expr × Parser)
  | 0, _, _ => throw .timeout
  | fuel + 1, p, acc =>
    if p.currentToken.Ty == .RBRACKET then pure (acc, p)
    else do
      let (item, p) ← parseExpression fuel LOWEST p
      let p := if p.currentToken.Ty == .COMMA then p.next else p
      parseArrayItems fuel p (acc ++ [orNil item])

def parseMapLit : Nat → Parser → Except ParseErr (Option Expr × Parser)
  | 0, _ => throw .timeout
  | fuel + 1, p => do
    let p := p.next
    let (items, p) ← parseMapItems fuel p []
    pure (some (.EMap items), p.next)

def parseMapItems : Nat → Parser → List (Expr × Expr) →
    Except ParseErr (List (Expr × Expr) × Parser)
  | 0, _, _ => throw .timeout
  | fuel + 1, p, acc =>
    if p.currentToken.Ty == .RCURLY then pure (acc, p)
    else do
      let (key, p) ← parseExpression fuel LOWEST p
      expectCurrent p [.COLON]
      let p := p.next
      let (v, p) ← parseExpression fuel LOWEST p
      let p := if p.currentToken.Ty == .COMMA then p.next else p
      parseMapItems fuel p (acc ++ [(orNil key, orNil v)])

def parseLen : Nat → Parser → Except ParseErr (Option Expr × Parser)
  | 0, _ => throw .timeout
  | fuel + 1, p => do
    let p := p.next
    let p := p.next
    let (subject, p) ← parseExpression fuel LOWEST p
    pure (some (.ELen (orNil subject)), p.next)

def parsePrintCall : Nat → Parser → Except ParseErr (Option Expr × Parser)
  | 0, _ => throw .timeout
  | fuel + 1, p => do
    let isNewLine := p.currentToken.Ty == .PRINTLN
    let p := p.next
    expectCurrent p [.LPAREN]
    let p := p.next
    let (args, p) ← parseCallArgs fuel p []
    pure (some (.EPrint args isNewLine), p.next)

end

/-- Go `Parser.Parse`: pull statements until the current token is EOF,
skipping nil statements. -/
def parseProgram : Nat → Parser → Except ParseErr (List Stmt)
  | 0, _ => throw .timeout
  | fuel + 1, p =>
    if p.currentToken.Ty == .EOF then pure []
    else do
      let (sOpt, p2) ← parseStatement fuel p
      let rest ← parseProgram fuel p2
      match sOpt with
      | some s => pure (s :: rest)
      | none => pure rest

/-- Initial parser state: `NewParser` plus the two priming `next` calls at
the start of `Parse`. -/
def initParser (toks : List Token) : Parser :=
  (Parser.mk zeroToken zeroToken toks).next.next

/-- Lex and parse a source string into the list of top-level statements. -/
def runParse (source : String) : Except String (List Stmt) := do
  let toks ← runLex source
  match parseProgram ((toks.length + 8) * (toks.length + 8)) (initParser toks) with
  | .ok stmts => pure stmts
  | .error _ => throw "parse error"

/-! ## Values and scopes (src/3_eval.go) -/

/-- Go `Function` AST node (also the runtime representation of a declared
function: `evalFunction` stores the node itself in the scope). -/
structure Function where
  Name : Identifier
  Parameters : List Identifier
  Body : List Stmt
  deriving Repr

/-- Runtime values: the dynamic types the evaluator's type switches
distinguish. `VInt` is Go `int64` (integer literals and their arithmetic);
`VGoInt` is the host `int` type produced by `len` and by `range` loop keys
— a distinct dynamic type that matches no `int64` switch case. Array
elements and map entries are possibly-nil (`Option Value`), as Go `[]any`
and `map[any]any` hold possibly-nil interface values. -/
inductive Value where
  | VBool (b : Bool)
  | VInt (i : Int)
  | VGoInt (i : Int)
  | VFloat (q : Rat)
  | VString (s : String)
  | VArray (items : List (Option Value))
  | VMap (entries : List (Option Value × Option Value))
  | VFunction (f : Function)
  deriving Repr

/-- Result of evaluating an expression or statement: Go `any`, possibly
nil. -/
abbrev RVal := Option Value

/-- Go runtime panics reachable from the evaluator. -/
inductive Fault where
  | typeAssertion
  | divideByZero
  | indexOutOfRange
  | unhashableKey
  deriving DecidableEq, Repr

inductive EvalErr where
  | fault (f : Fault)
  | timeout
  deriving DecidableEq, Repr

abbrev EvalM (α : Type) := Except EvalErr α

/-- Go map assignment `m[k] = v` on a `map[string]T`: replace the binding
if the key is present, else add it. -/
def setAssoc {α : Type} : List (String × α) → String → α → List (String × α)
  | [], k, v => [(k, v)]
  | (k2, v2) :: rest, k, v =>
    if k2 = k then (k, v) :: rest else (k2, v2) :: setAssoc rest k v

def getAssoc {α : Type} : List (String × α) → String → Option α
  | [], _ => none
  | (k2, v2) :: rest, k => if k2 = k then some v2 else getAssoc rest k

/-- One scope of the chain: `Scope.variables` and `Scope.functions`. The
parent pointer is the rest of the enclosing `Env` list. -/
structure Frame where
  vars : List (String × RVal)
  funcs : List (String × Function)
  deriving Repr

/-- The scope chain reachable from the current scope, innermost first; the
root scope (parent nil) is last. -/
abbrev Env := List Frame

/-- Go `NewScope`: fresh empty maps (the parent is the tail of the chain in
this representation). -/
def NewScopeFrame : Frame := ⟨[], []⟩

def Frame.setVariable (f : Frame) (name : String) (v : RVal) : Frame :=
  { f with vars := setAssoc f.vars name v }

def Frame.setFunction (f : Frame) (name : String) (fn : Function) : Frame :=
  { f with funcs := setAssoc f.funcs name fn }

/-- Go `Scope.GetVariable`: look in this scope's map, else recurse into the
parent. The outer `Option` is the `ok` flag; a scope can hold a nil value
under a name, giving `some none`. -/
def GetVariable : Env → String → Option RVal
  | [], _ => none
  | f :: rest, name =>
    match getAssoc f.vars name with
    | some v => some v
    | none => GetVariable rest name

/-- Go `Scope.GetFunction`. -/
def GetFunction : Env → String → Option Function
  | [], _ => none
  | f :: rest, name =>
    match getAssoc f.funcs name with
    | some fn => some fn
    | none => GetFunction rest name

/-- Go `Scope.SetVariable` on the current scope of the chain. -/
def setVariableHead : Env → String → RVal → Env
  | [], _, _ => []
  | f :: rest, name, v => f.setVariable name v :: rest

/-- Go `Scope.SetFunction` on the current scope of the chain. -/
def setFunctionHead : Env → String → Function → Env
  | [], _, _ => []
  | f :: rest, name, fn => f.setFunction name fn :: rest

/-! ## Pure operation helpers (src/3_eval.go) -/

/-- Go `evalBinaryOperationBoolBool`. -/
def evalBinaryOperationBoolBool (left right : Bool) (operator : Token) : RVal :=
  match operator.Ty with
  | .EQ => some (.VBool (left == right))
  | .NEQ => some (.VBool (left != right))
  | .OR => some (.VBool (left || right))
  | .AND => some (.VBool (left && right))
  | _ => none

/-- Go `evalBinaryOperationIntInt`. Division is Go `int64` division:
truncation toward zero; a zero divisor is a runtime panic. -/
def evalBinaryOperationIntInt (left right : Int) (operator : Token) : EvalM RVal :=
  match operator.Ty with
  | .LT => pure (some (.VBool (decide (left < right))))
  | .GT => pure (some (.VBool (decide (left > right))))
  | .LEQ => pure (some (.VBool (decide (left ≤ right))))
  | .GEQ => pure (some (.VBool (decide (left ≥ right))))
  | .EQ => pure (some (.VBool (decide (left = right))))
  | .NEQ => pure (some (.VBool (decide (left ≠ right))))
  | .PLUS => pure (some (.VInt (left + right)))
  | .MINUS => pure (some (.VInt (left - right)))
  | .ASTERISK => pure (some (.VInt (left * right)))
  | .SLASH =>
    if right = 0 then throw (.fault .divideByZero)
    else pure (some (.VInt (left.tdiv right)))
  | _ => pure none

/-- Go `evalBinaryOperationIntFloat`: the int operand is converted with
`float64(left)` in every arm before the float operation. -/
def evalBinaryOperationIntFloat (left : Int) (right : Rat) (operator : Token) : RVal :=
  match operator.Ty with
  | .LT => some (.VBool (decide ((left : Rat) < right)))
  | .GT => some (.VBool (decide ((left : Rat) > right)))
  | .LEQ => some (.VBool (decide ((left : Rat) ≤ right)))
  | .GEQ => some (.VBool (decide ((left : Rat) ≥ right)))
  | .EQ => some (.VBool (decide ((left : Rat) = right)))
  | .NEQ => some (.VBool (decide ((left : Rat) ≠ right)))
  | .PLUS => some (.VFloat ((left : Rat) + right))
  | .MINUS => some (.VFloat ((left : Rat) - right))
  | .ASTERISK => some (.VFloat ((left : Rat) * right))
  | .SLASH => some (.VFloat ((left : Rat) / right))
  | _ => none

/-- Go `evalBinaryOperationFloatInt`: the int operand is converted with
`float64(right)` in every arm. -/
def evalBinaryOperationFloatInt (left : Rat) (right : Int) (operator : Token) : RVal :=
  match operator.Ty with
  | .LT => some (.VBool (decide (left < (right : Rat))))
  | .GT => some (.VBool (decide (left > (right : Rat))))
  | .LEQ => some (.VBool (decide (left ≤ (right : Rat))))
  | .GEQ => some (.VBool (decide (left ≥ (right : Rat))))
  | .EQ => some (.VBool (decide (left = (right : Rat))))
  | .NEQ => some (.VBool (decide (left ≠ (right : Rat))))
  | .PLUS => some (.VFloat (left + (right : Rat)))
  | .MINUS => some (.VFloat (left - (right : Rat)))
  | .ASTERISK => some (.VFloat (left * (right : Rat)))
  | .SLASH => some (.VFloat (left / (right : Rat)))
  | _ => none

/-- Go `evalBinaryOperationFloatFloat`. -/
def evalBinaryOperationFloatFloat (left right : Rat) (operator : Token) : RVal :=
  match operator.Ty with
  | .LT => some (.VBool (decide (left < right)))
  | .GT => some (.VBool (decide (left > right)))
  | .LEQ => some (.VBool (decide (left ≤ right)))
  | .GEQ => some (.VBool (decide (left ≥ right)))
  | .EQ => some (.VBool (decide (left = right)))
  | .NEQ => some (.VBool (decide (left ≠ right)))
  | .PLUS => some (.VFloat (left + right))
  | .MINUS => some (.VFloat (left - right))
  | .ASTERISK => some (.VFloat (left * right))
  | .SLASH => some (.VFloat (left / right))
  | _ => none

/-- Go `evalBinaryOperationStringString`. -/
def evalBinaryOperationStringString (left right : String) (operator : Token) : RVal :=
  match operator.Ty with
  | .PLUS => some (.VString (left ++ right))
  | _ => none

/-- Value part of Go `evalUnaryOperation` (the type switch applied to the
already-evaluated operand). -/
def evalUnaryOperationVal (v : RVal) (tok : Token) : RVal :=
  match v with
  | some (.VBool t) => if tok.Ty = .NOT then some (.VBool (!t)) else none
  | some (.VInt t) =>
    if tok.Ty = .PLUS then some (.VInt t)
    else if tok.Ty = .MINUS then some (.VInt (-1 * t)) else none
  | some (.VFloat t) =>
    if tok.Ty = .PLUS then some (.VFloat t)
    else if tok.Ty = .MINUS then some (.VFloat (-1 * t)) else none
  | _ => none

/-- Value part of Go `evalLen`. Go `len` on a string counts bytes and
returns a host `int`. -/
def evalLenVal (v : RVal) : RVal :=
  match v with
  | some (.VString s) => some (.VGoInt s.utf8ByteSize)
  | some (.VArray items) => some (.VGoInt items.length)
  | some (.VMap entries) => some (.VGoInt entries.length)
  | _ => none

/-- Valid Go map key check: slices, maps and function nodes (structs
containing slices) are uncomparable dynamic types, and hashing them
panics. -/
def hashableKey : RVal → Bool
  | none => true
  | some (.VBool _) => true
  | some (.VInt _) => true
  | some (.VGoInt _) => true
  | some (.VFloat _) => true
  | some (.VString _) => true
  | _ => false

/-- Go interface equality between hashable key values: equal dynamic type
and equal value. -/
def keyEq : RVal → RVal → Bool
  | none, none => true
  | some (.VBool a), some (.VBool b) => a == b
  | some (.VInt a), some (.VInt b) => a == b
  | some (.VGoInt a), some (.VGoInt b) => a == b
  | some (.VFloat a), some (.VFloat b) => a == b
  | some (.VString a), some (.VString b) => a == b
  | _, _ => false

def mapSetEntries : List (RVal × RVal) → RVal → RVal → List (RVal × RVal)
  | [], k, v => [(k, v)]
  | (k2, v2) :: rest, k, v =>
    if keyEq k2 k then (k, v) :: rest else (k2, v2) :: mapSetEntries rest k v

/-- Go `m[k] = v` on a `map[any]any`. -/
def mapSet (entries : List (RVal × RVal)) (k v : RVal) : EvalM (List (RVal × RVal)) :=
  if hashableKey k then pure (mapSetEntries entries k v)
  else throw (.fault .unhashableKey)

def mapGetEntries : List (RVal × RVal) → RVal → RVal
  | [], _ => none
  | (k2, v2) :: rest, k => if keyEq k2 k then v2 else mapGetEntries rest k

/-- Go `m[k]` on a `map[any]any`: a missing key yields the zero value nil. -/
def mapGet (entries : List (RVal × RVal)) (k : RVal) : EvalM RVal :=
  if hashableKey k then pure (mapGetEntries entries k)
  else throw (.fault .unhashableKey)

/-- Binding of evaluated arguments to parameters in `evalCall`'s new
scope. -/
def bindParams : List Identifier → List RVal → Frame → Frame
  | p :: ps, v :: vs, f => bindParams ps vs (f.setVariable p.Tok.Value v)
  | _, _, f => f

/-- Dropping the child scope created by `NewScope` after a block, call or
loop body finishes: the caller's chain is the tail. Evaluation preserves
chain length, so the nil case is unreachable. -/
def dropFrame : RVal × Env → RVal × Env
  | (r, []) => (r, [])
  | (r, _ :: rest) => (r, rest)

/-! ## Evaluator (src/3_eval.go)

Mutually recursive evaluation. Each function consumes one unit of fuel per
call; a `timeout` result only means the fuel bound was hit (e.g. a source
`while true` loop), never a program value or fault. Compared to the source:
`evalFunction` and `evalReturn` are inlined at their `evalStatement`
dispatch sites; the argument-binding loop of `evalCall` is split into
evaluating the arguments in the caller's scope (in order) and then folding
the bindings into the fresh frame, which is equivalent because the fresh
scope is invisible to the argument expressions. `evalPrint` evaluates its
arguments for their effects; the output itself is elided. -/

mutual

def evalStatement : Nat → Stmt → Env → EvalM (RVal × Env)
  | 0, _, _ => throw .timeout
  | fuel + 1, s, env =>
    match s with
    | .SVariable name value isNew => evalVariable fuel name value isNew env
    | .SIf c cons alt => evalIf fuel c cons alt env
    | .SWhile c body => evalWhile fuel c body env
    | .SFor k v c body => evalFor fuel k v c body env
    | .SFunction name params body =>
      pure (none, setFunctionHead env name.Tok.Value ⟨name, params, body⟩)
    | .SReturn v => evalExpression fuel v env
    | .SBlock stmts => do
      let r ← evalBlock fuel stmts (NewScopeFrame :: env)
      pure (dropFrame r)
    | .SExpression e => evalExpression fuel e env
    | .SNil => pure (none, env)

def evalVariable : Nat → Identifier → Expr → Bool → Env → EvalM (RVal × Env)
  | 0, _, _, _, _ => throw .timeout
  | fuel + 1, name, value, isNew, env =>
    if isNew then do
      let (v, env) ← evalExpression fuel value env
      pure (none, setVariableHead env name.Tok.Value v)
    else do
      let env ← assignLoop fuel name.Tok.Value value env
      pure (none, env)

/-- The reassignment loop of `evalVariable` (`IsNew = false`): visit every
scope of the chain from the current one to the root; at each visited scope,
if the name resolves anywhere in the chain rooted there, re-evaluate the
value expression against that scope and write the result directly into that
scope; then move to the parent. -/
def assignLoop : Nat → String → Expr → Env → EvalM Env
  | 0, _, _, _ => throw .timeout
  | fuel + 1, name, value, env =>
    match env with
    | [] => pure []
    | f :: rest => do
      let env2 ←
        if (GetVariable (f :: rest) name).isSome then do
          let (v, env2) ← evalExpression fuel value (f :: rest)
          pure (setVariableHead env2 name v)
        else pure (f :: rest)
      match env2 with
      | [] => pure []
      | f2 :: rest2 => do
        let rest3 ← assignLoop fuel name value rest2
        pure (f2 :: rest3)

def evalIf : Nat → Expr → List Stmt → Option (List Stmt) → Env → EvalM (RVal × Env)
  | 0, _, _, _, _ => throw .timeout
  | fuel + 1, c, cons, alt, env => do
    let (cv, env) ← evalExpression fuel c env
    match cv with
    | some (.VBool b) =>
      if b then do
        let r ← evalBlock fuel cons (NewScopeFrame :: env)
        pure (dropFrame r)
      else
        match alt with
        | some altStmts => do
          let r ← evalBlock fuel altStmts (NewScopeFrame :: env)
          pure (dropFrame r)
        | none => pure (none, env)
    | _ => throw (.fault .typeAssertion)

def evalWhile : Nat → Expr → List Stmt → Env → EvalM (RVal × Env)
  | 0, _, _, _ => throw .timeout
  | fuel + 1, c, body, env => do
    let (cv, env) ← evalExpression fuel c env
    match cv with
    | some (.VBool b) =>
      if b then do
        let (r, env) ← dropFrame <$> evalBlock fuel body (NewScopeFrame :: env)
        match r with
        | some v => pure (some v, env)
        | none => evalWhile fuel c body env
      else pure (none, env)
    | _ => throw (.fault .typeAssertion)

def evalFor : Nat → Identifier → Identifier → Expr → List Stmt → Env → EvalM (RVal × Env)
  | 0, _, _, _, _, _ => throw .timeout
  | fuel + 1, k, v, c, body, env => do
    let (subject, env) ← evalExpression fuel c env
    match subject with
    | some (.VString s) => evalForString fuel k v body s.data 0 env
    | some (.VArray items) => evalForArray fuel k v body items 0 env
    | some (.VMap entries) => evalForMap fuel k v body entries env
    | _ => pure (none, env)

/-- Go `for key, value := range subject` on a string: `key` is the byte
offset of the rune (a host `int`), `value` the one-rune string
`string(value)`. -/
def evalForString : Nat → Identifier → Identifier → List Stmt → List Char → Nat → Env →
    EvalM (RVal × Env)
  | 0, _, _, _, _, _, _ => throw .timeout
  | fuel + 1, k, v, body, chars, offset, env =>
    match chars with
    | [] => pure (none, env)
    | c :: cs => do
      let frame := (NewScopeFrame.setVariable k.Tok.Value (some (.VGoInt offset)))
        |>.setVariable v.Tok.Value (some (.VString (String.singleton c)))
      let (r, env) ← dropFrame <$> evalBlock fuel body (frame :: env)
      match r with
      | some rv => pure (some rv, env)
      | none => evalForString fuel k v body cs (offset + c.utf8Size) env

/-- Go `range` on a `[]any`: `key` is the index (a host `int`). -/
def evalForArray : Nat → Identifier → Identifier → List Stmt → List RVal → Nat → Env →
    EvalM (RVal × Env)
  | 0, _, _, _, _, _, _ => throw .timeout
  | fuel + 1, k, v, body, items, idx, env =>
    match items with
    | [] => pure (none, env)
    | it :: its => do
      let frame := (NewScopeFrame.setVariable k.Tok.Value (some (.VGoInt idx)))
        |>.setVariable v.Tok.Value it
      let (r, env) ← dropFrame <$> evalBlock fuel body (frame :: env)
      match r with
      | some rv => pure (some rv, env)
      | none => evalForArray fuel k v body its (idx + 1) env

/-- Go `range` on a `map[any]any`. Go iterates in unspecified order; the
model iterates the entries in insertion order (no claim depends on the
order). -/
def evalForMap : Nat → Identifier → Identifier → List Stmt → List (RVal × RVal) → Env →
    EvalM (RVal × Env)
  | 0, _, _, _, _, _ => throw .timeout
  | fuel + 1, k, v, body, entries, env =>
    match entries with
    | [] => pure (none, env)
    | (ek, ev) :: rest => do
      let frame := (NewScopeFrame.setVariable k.Tok.Value ek).setVariable v.Tok.Value ev
      let (r, env) ← dropFrame <$> evalBlock fuel body (frame :: env)
      match r with
      | some rv => pure (some rv, env)
      | none => evalForMap fuel k v body rest env

def evalBlock : Nat → List Stmt → Env → EvalM (RVal × Env)
  | 0, _, _ => throw .timeout
  | fuel + 1, stmts, env =>
    match stmts with
    | [] => pure (none, env)
    | .SNil :: rest => evalBlock fuel rest env
    | s :: rest => do
      let (r, env) ← evalStatement fuel s env
      match r with
      | some v => pure (some v, env)
      | none => evalBlock fuel rest env

def evalExpression : Nat → Expr → Env → EvalM (RVal × Env)
  | 0, _, _ => throw .timeout
  | fuel + 1, e, env =>
    match e with
    | .ENil => pure (none, env)
    | .EBoolean b => pure (some (.VBool b), env)
    | .EInteger i => pure (some (.VInt i), env)
    | .EFloat q => pure (some (.VFloat q), env)
    | .EString s => pure (some (.VString s), env)
    | .EArray items => do
      let (vs, env) ← evalExprList fuel items env
      pure (some (.VArray vs), env)
    | .EMap items => do
      let (entries, env) ← evalMapItems fuel items [] env
      pure (some (.VMap entries), env)
    | .EIndex idx subject => do
      let (sv, env) ← evalExpression fuel subject env
      match sv with
      | some (.VArray arr) => do
        let (iv, env) ← evalExpression fuel idx env
        match iv with
        | some (.VInt i) =>
          if 0 ≤ i ∧ i < (arr.length : Int) then pure (arr.getD i.toNat none, env)
          else throw (.fault .indexOutOfRange)
        | _ => throw (.fault .typeAssertion)
      | some (.VMap entries) => do
        let (kv, env) ← evalExpression fuel idx env
        let r ← mapGet entries kv
        pure (r, env)
      | _ => pure (none, env)
    | .ECall id args => evalCall fuel id args env
    | .EIdentifier id =>
      if id.IsFunctionCall then
        match GetFunction env id.Tok.Value with
        | some fn => pure (some (.VFunction fn), env)
        | none => pure (none, env)
      else
        match GetVariable env id.Tok.Value with
        | some v => pure (v, env)
        | none => pure (none, env)
    | .EUnaryOperation tok ex => do
      let (v, env) ← evalExpression fuel ex env
      pure (evalUnaryOperationVal v tok, env)
    | .EBinaryOperation tok l r => do
      let (lv, env) ← evalExpression fuel l env
      match lv with
      | some (.VBool a) => do
        let (rv, env) ← evalExpression fuel r env
        match rv with
        | some (.VBool b) => pure (evalBinaryOperationBoolBool a b tok, env)
        | _ => pure (none, env)
      | some (.VInt a) => do
        let (rv, env) ← evalExpression fuel r env
        match rv with
        | some (.VInt b) => do
          let v ← evalBinaryOperationIntInt a b tok
          pure (v, env)
        | some (.VFloat b) => pure (evalBinaryOperationIntFloat a b tok, env)
        | _ => pure (none, env)
      | some (.VFloat a) => do
        let (rv, env) ← evalExpression fuel r env
        match rv with
        | some (.VInt b) => pure (evalBinaryOperationFloatInt a b tok, env)
        | some (.VFloat b) => pure (evalBinaryOperationFloatFloat a b tok, env)
        | _ => pure (none, env)
      | some (.VString a) => do
        let (rv, env) ← evalExpression fuel r env
        match rv with
        | some (.VString b) => pure (evalBinaryOperationStringString a b tok, env)
        | _ => pure (none, env)
      | _ => pure (none, env)
    | .ELen subject => do
      let (v, env) ← evalExpression fuel subject env
      pure (evalLenVal v, env)
    | .EPrint args _ => do
      let (_, env) ← evalExprList fuel args env
      pure (none, env)

def evalExprList : Nat → List Expr → Env → EvalM (List RVal × Env)
  | 0, _, _ => throw .timeout
  | fuel + 1, es, env =>
    match es with
    | [] => pure ([], env)
    | e :: rest => do
      let (v, env) ← evalExpression fuel e env
      let (vs, env) ← evalExprList fuel rest env
      pure (v :: vs, env)

def evalMapItems : Nat → List (Expr × Expr) → List (RVal × RVal) → Env →
    EvalM (List (RVal × RVal) × Env)
  | 0, _, _, _ => throw .timeout
  | fuel + 1, items, acc, env =>
    match items with
    | [] => pure (acc, env)
    | (ke, ve) :: rest => do
      let (kv, env) ← evalExpression fuel ke env
      let (vv, env) ← evalExpression fuel ve env
      let acc ← mapSet acc kv vv
      evalMapItems fuel rest acc env

def evalCall : Nat → Identifier → List Expr → Env → EvalM (RVal × Env)
  | 0, _, _, _ => throw .timeout
  | fuel + 1, id, args, env =>
    match GetFunction env id.Tok.Value with
    | none => pure (none, env)
    | some fn =>
      if fn.Parameters.length ≠ args.length then pure (none, env)
      else do
        let (vals, env) ← evalExprList fuel args env
        let frame := bindParams fn.Parameters vals NewScopeFrame
        let r ← evalBlock fuel fn.Body (frame :: env)
        pure (dropFrame r)

end

/-- Go `Evaluator.Eval`: evaluate the top-level statements in order against
the given scope; the returned value is that of the last statement (nil for
an empty program). -/
def evalProgram : Nat → List Stmt → Env → EvalM (RVal × Env)
  | 0, _, _ => throw .timeout
  | fuel + 1, stmts, env =>
    match stmts with
    | [] => pure (none, env)
    | [s] => evalStatement fuel s env
    | s :: rest => do
      let (_, env) ← evalStatement fuel s env
      evalProgram fuel rest env

/-- Whole pipeline as in `main`: lex, parse, then evaluate against a fresh
root scope (`NewScope(nil)`). -/
def run (source : String) (fuel : Nat) : Except String RVal := do
  let stmts ← runParse source
  match evalProgram fuel stmts [NewScopeFrame] with
  | .ok (v, _) => pure v
  | .error (.fault _) => throw "fault"
  | .error .timeout => throw "timeout"

/-! ## Generic lemmas about the `Except` monad used below -/

theorem bind_ok {ε α β : Type} (x : α) (f : α → Except ε β) :
    (Except.ok x >>= f) = f x := rfl

theorem bind_error {ε α β : Type} (e : ε) (f : α → Except ε β) :
    ((Except.error e : Except ε α) >>= f) = .error e := rfl

theorem map_ok {ε α β : Type} (g : α → β) (x : α) :
    (g <$> (Except.ok x : Except ε α)) = .ok (g x) := rfl

theorem map_error {ε α β : Type} (g : α → β) (e : ε) :
    (g <$> (Except.error e : Except ε α)) = .error e := rfl

theorem pure_ok {ε α : Type} (x : α) : (pure x : Except ε α) = .ok x := rfl

theorem throw_error {ε α : Type} (e : ε) : (throw e : Except ε α) = .error e := rfl

/-! ## Claim C10 -/

/-- C10: evaluating an identifier expression that is not in function-call
position and whose name is not bound as a variable in any scope of the
chain yields no value (nil) silently — an `.ok` result, not a fault — and
returns the scope chain unchanged. -/
theorem C10_unbound_identifier_silent (fuel : Nat) (id : Identifier) (env : Env)
    (h1 : id.IsFunctionCall = false) (h2 : GetVariable env id.Tok.Value = none) :
    evalExpression (fuel + 1) (.EIdentifier id) env = .ok (none, env) := by
  simp [evalExpression, h1, h2, pure_ok]

/-- Witness for C10 at a concrete input: the identifier `x` in an empty
root scope. -/
theorem C10_unbound_identifier_silent_witness :
    evalExpression 1 (.EIdentifier ⟨⟨.IDENT, "x"⟩, false⟩) [NewScopeFrame]
      = .ok (none, [NewScopeFrame]) :=
  C10_unbound_identifier_silent 0 ⟨⟨.IDENT, "x"⟩, false⟩ [NewScopeFrame] rfl rfl

/-! ## Claim C4 -/

set_option linter.unnecessarySeqFocus false in
/-- C4: (1) a statement of a block whose result is non-nil stops the block,
which returns that result; (2) a statement whose result is nil lets the
block continue with the remaining statements in the same scope; (3) a
non-nil result from a while iteration's body immediately propagates out of
the loop (the child frame of the iteration is dropped); (4) concretely,
this nil/non-nil statement-result mechanism is how `return` escapes a
nested block inside a while loop: `while true \x7b \x7b return 7 \x7d \x7d`
evaluates to 7 instead of looping. -/
theorem C4_result_escape :
    (∀ (fuel : Nat) (s : Stmt) (rest : List Stmt) (env env1 : Env) (v : Value),
      evalStatement fuel s env = .ok (some v, env1) →
      evalBlock (fuel + 1) (s :: rest) env = .ok (some v, env1)) ∧
    (∀ (fuel : Nat) (s : Stmt) (rest : List Stmt) (env env1 : Env),
      evalStatement fuel s env = .ok (none, env1) →
      evalBlock (fuel + 1) (s :: rest) env = evalBlock fuel rest env1) ∧
    (∀ (fuel : Nat) (c : Expr) (body : List Stmt) (env env1 env2 : Env) (v : Value),
      evalExpression fuel c env = .ok (some (.VBool true), env1) →
      evalBlock fuel body (NewScopeFrame :: env1) = .ok (some v, env2) →
      evalWhile (fuel + 1) c body env = .ok (dropFrame (some v, env2))) ∧
    (evalStatement 9 (.SWhile (.EBoolean true) [.SBlock [.SReturn (.EInteger 7)]]) [NewScopeFrame]
      = .ok (some (.VInt 7), [NewScopeFrame])) := by
  refine ⟨?_, ?_, ?_, rfl⟩
  · intro fuel s rest env env1 v h
    cases s <;> simp [evalBlock, h, bind_ok, pure_ok] <;>
      cases fuel <;> simp_all [evalStatement, pure_ok, throw_error]
  · intro fuel s rest env env1 h
    cases s <;> simp [evalBlock, h, bind_ok, pure_ok] <;>
      cases fuel <;> simp_all [evalStatement, pure_ok, throw_error]
  · intro fuel c body env env1 env2 v h1 h2
    cases env2 <;> simp [evalWhile, h1, h2, bind_ok, pure_ok, map_ok, dropFrame]

/-- Witness for C4 at concrete inputs: a `return 7` statement heading a
block, a nil-result declaration heading a block, and a while iteration
whose body returns 7. -/
theorem C4_result_escape_witness :
    (evalBlock 3 [.SReturn (.EInteger 7), .SReturn (.EInteger 8)] [NewScopeFrame]
      = .ok (some (.VInt 7), [NewScopeFrame])) ∧
    (evalBlock 4 [.SVariable ⟨⟨.IDENT, "x"⟩, false⟩ (.EInteger 1) true, .SReturn (.EInteger 8)]
        [NewScopeFrame]
      = evalBlock 3 [.SReturn (.EInteger 8)] [⟨[("x", some (.VInt 1))], []⟩]) ∧
    (evalWhile 4 (.EBoolean true) [.SReturn (.EInteger 7)] [NewScopeFrame]
      = .ok (dropFrame (some (.VInt 7), [NewScopeFrame, NewScopeFrame]))) := by
  refine ⟨?_, ?_, ?_⟩
  · exact C4_result_escape.1 2 (.SReturn (.EInteger 7)) [.SReturn (.EInteger 8)]
      [NewScopeFrame] [NewScopeFrame] (.VInt 7) rfl
  · exact C4_result_escape.2.1 3 (.SVariable ⟨⟨.IDENT, "x"⟩, false⟩ (.EInteger 1) true)
      [.SReturn (.EInteger 8)] [NewScopeFrame] [⟨[("x", some (.VInt 1))], []⟩] rfl
  · exact C4_result_escape.2.2.1 3 (.EBoolean true) [.SReturn (.EInteger 7)]
      [NewScopeFrame] [NewScopeFrame] [NewScopeFrame, NewScopeFrame] (.VInt 7) rfl rfl

/-! ## Claim C6 -/

/-- C6: the program of the claim — `fib` defined by recursion with base
cases 1 and 2, then `fib(3)` as the final top-level statement — evaluates,
through the whole lexer/parser/evaluator pipeline against an empty root
scope, to the integer 1. -/
theorem C6_fib_recursion :
    run "fn fib(n)\x7b if n==1 \x7breturn 0\x7d if n==2 \x7breturn 1\x7d return fib(n-1)+fib(n-2)\x7d fib(3)"
      1000 = .ok (some (.VInt 1)) := by
  rfl

/-! ## Claim C1 -/

/-- What the reassignment loop of `evalVariable` actually computes for a
side-effect-free (literal) value: every scope of the chain from which the
name is visible — i.e. every scope from the assignment site up to and
including the nearest scope defining the name — gets the binding written
directly into it; scopes above the defining one are untouched. -/
def reassignLitSpec (name : String) (v : RVal) : Env → Env
  | [] => []
  | f :: rest =>
    (if (GetVariable (f :: rest) name).isSome then f.setVariable name v else f)
      :: reassignLitSpec name v rest

theorem reassignLitSpec_not_found (name : String) (v : RVal) :
    ∀ (env : Env), GetVariable env name = none → reassignLitSpec name v env = env := by
  intro env
  induction env with
  | nil => intro _; rfl
  | cons f rest ih =>
    intro h
    have hf : getAssoc f.vars name = none := by
      cases hg : getAssoc f.vars name with
      | none => rfl
      | some w => rw [GetVariable, hg] at h; exact Option.noConfusion h
    have hrest : GetVariable rest name = none := by
      rw [GetVariable, hf] at h; exact h
    simp [reassignLitSpec, GetVariable, hf, hrest, ih hrest]

theorem assignLoop_int_lit (name : String) (n : Int) :
    ∀ (env : Env) (fuel : Nat), env.length ≤ fuel →
    assignLoop (fuel + 2) name (.EInteger n) env
      = .ok (reassignLitSpec name (some (.VInt n)) env) := by
  intro env
  induction env with
  | nil => intro fuel _; simp [assignLoop, reassignLitSpec, pure_ok]
  | cons f rest ih =>
    intro fuel h
    cases fuel with
    | zero => simp at h
    | succ g =>
      have hr : rest.length ≤ g := by simpa using h
      have e1 : g + 1 + 2 = (g + 2) + 1 := by omega
      have e2 : g + 2 = (g + 1) + 1 := by omega
      rw [e1, assignLoop]
      by_cases hv : (GetVariable (f :: rest) name).isSome
      · rw [e2]
        simp only [hv, if_pos, evalExpression, bind_ok, pure_ok, setVariableHead]
        rw [← e2, ih g hr]
        simp [reassignLitSpec, hv, bind_ok, pure_ok]
      · simp only [hv, if_neg, Bool.false_eq_true, pure_ok, bind_ok]
        rw [ih g hr]
        simp [reassignLitSpec, hv, bind_ok, pure_ok]

/-- Counterexample to C1 as stated. Input: the chain `S → R` where the
current scope S defines nothing and the root R binds `x ↦ 1`; statement
`x = 2` (a reassignment, `IsNew = false`). The nearest — and only — scope
defining `x` is R, so per the claim S must be unchanged. The code instead
writes `x ↦ 2` into S as well (first conjunct computes the run, second
records that S's variable map changed from empty to non-empty).
Conjuncts three and four show the value expression is also not evaluated
once: for `x = y` with `y ↦ 10` local to S and `x ↦ 1` in R, the code
re-evaluates `y` against R where it is unbound and overwrites R's `x` with
nil instead of 10. -/
theorem C1_reassignment_counterexample :
    (evalStatement 6 (.SVariable ⟨⟨.IDENT, "x"⟩, false⟩ (.EInteger 2) false)
        [⟨[], []⟩, ⟨[("x", some (.VInt 1))], []⟩]
      = .ok (none, [⟨[("x", some (.VInt 2))], []⟩, ⟨[("x", some (.VInt 2))], []⟩])) ∧
    ([("x", some (.VInt 2))] ≠ ([] : List (String × RVal))) ∧
    (evalStatement 6 (.SVariable ⟨⟨.IDENT, "x"⟩, false⟩
          (.EIdentifier ⟨⟨.IDENT, "y"⟩, false⟩) false)
        [⟨[("y", some (.VInt 10))], []⟩, ⟨[("x", some (.VInt 1))], []⟩]
      = .ok (none, [⟨[("y", some (.VInt 10)), ("x", some (.VInt 10))], []⟩,
          ⟨[("x", none)], []⟩])) ∧
    ((none : RVal) ≠ some (.VInt 10)) := by
  exact ⟨rfl, by simp, rfl, by simp⟩

/-- C1 amended: for a reassignment statement of name n with a literal
value, the evaluator walks every scope of the chain from the assignment
site outward; at each scope from which n is visible (defined there or in
an ancestor) it re-evaluates the value expression against that scope and
writes the result directly into that scope — so the binding is written
into every scope from the assignment site up to and including the nearest
defining scope, not only the nearest one; if no scope in the chain defines
n, the assignment is silently dropped (an `.ok nil` result, no error) and
the chain is returned unchanged. -/
theorem C1_reassignment_amended :
    (∀ (fuel : Nat) (id : Identifier) (n : Int) (env : Env), env.length ≤ fuel →
      evalStatement (fuel + 4) (.SVariable id (.EInteger n) false) env
        = .ok (none, reassignLitSpec id.Tok.Value (some (.VInt n)) env)) ∧
    (∀ (fuel : Nat) (id : Identifier) (n : Int) (env : Env), env.length ≤ fuel →
      GetVariable env id.Tok.Value = none →
      evalStatement (fuel + 4) (.SVariable id (.EInteger n) false) env = .ok (none, env)) := by
  have main : ∀ (fuel : Nat) (id : Identifier) (n : Int) (env : Env), env.length ≤ fuel →
      evalStatement (fuel + 4) (.SVariable id (.EInteger n) false) env
        = .ok (none, reassignLitSpec id.Tok.Value (some (.VInt n)) env) := by
    intro fuel id n env h
    have e1 : fuel + 4 = (fuel + 3) + 1 := by omega
    have e2 : fuel + 3 = (fuel + 2) + 1 := by omega
    have e3 : fuel + 2 = fuel + 2 := rfl
    rw [e1, evalStatement, e2, evalVariable]
    simp [Bool.false_eq_true, assignLoop_int_lit id.Tok.Value n env fuel h,
      bind_ok, pure_ok]
  exact ⟨main, fun fuel id n env h hnone => by
    rw [main fuel id n env h, reassignLitSpec_not_found id.Tok.Value _ env hnone]⟩

/-- Witness for the amended C1 at concrete inputs: reassigning `x = 2`
over the two-frame chain of the counterexample, and over a chain that does
not define `x` at all (unchanged). -/
theorem C1_reassignment_amended_witness :
    (evalStatement 6 (.SVariable ⟨⟨.IDENT, "x"⟩, false⟩ (.EInteger 2) false)
        [⟨[], []⟩, ⟨[("x", some (.VInt 1))], []⟩]
      = .ok (none, reassignLitSpec "x" (some (.VInt 2))
          [⟨[], []⟩, ⟨[("x", some (.VInt 1))], []⟩])) ∧
    (evalStatement 5 (.SVariable ⟨⟨.IDENT, "x"⟩, false⟩ (.EInteger 2) false) [⟨[], []⟩]
      = .ok (none, [⟨[], []⟩])) :=
  ⟨C1_reassignment_amended.1 2 ⟨⟨.IDENT, "x"⟩, false⟩ 2
      [⟨[], []⟩, ⟨[("x", some (.VInt 1))], []⟩] (by decide),
    C1_reassignment_amended.2 1 ⟨⟨.IDENT, "x"⟩, false⟩ 2 [⟨[], []⟩] (by decide) rfl⟩

/-! ## Claim C8 -/

theorem getAssoc_setAssoc_self {α : Type} (l : List (String × α)) (k : String) (v : α) :
    getAssoc (setAssoc l k v) k = some v := by
  induction l with
  | nil => simp [setAssoc, getAssoc]
  | cons p rest ih =>
    by_cases h : p.1 = k
    · simp [setAssoc, getAssoc, h]
    · simp [setAssoc, getAssoc, h, ih]

theorem getAssoc_setAssoc_ne {α : Type} (l : List (String × α)) (k k2 : String) (v : α)
    (h : k2 ≠ k) : getAssoc (setAssoc l k v) k2 = getAssoc l k2 := by
  induction l with
  | nil => simp [setAssoc, getAssoc, h, Ne.symm h]
  | cons p rest ih =>
    by_cases hp : p.1 = k
    · simp [setAssoc, getAssoc, hp, h, Ne.symm h]
    · by_cases hp2 : p.1 = k2 <;> simp [setAssoc, getAssoc, hp, hp2, h, Ne.symm h, ih]

theorem GetVariable_reassignLitSpec_found (name : String) (v : RVal) :
    ∀ (env : Env), (GetVariable env name).isSome →
    GetVariable (reassignLitSpec name v env) name = some v := by
  intro env
  induction env with
  | nil => intro h; simp [GetVariable] at h
  | cons f rest ih =>
    intro h
    rw [reassignLitSpec, if_pos h]
    simp only [GetVariable, Frame.setVariable]
    rw [getAssoc_setAssoc_self]

theorem GetVariable_reassignLitSpec_other (name name2 : String) (v : RVal)
    (hne : name2 ≠ name) : ∀ (env : Env),
    GetVariable (reassignLitSpec name v env) name2 = GetVariable env name2 := by
  intro env
  induction env with
  | nil => rfl
  | cons f rest ih =>
    rw [reassignLitSpec]
    by_cases hv : (GetVariable (f :: rest) name).isSome
    · rw [if_pos hv]
      simp only [GetVariable, Frame.setVariable]
      rw [getAssoc_setAssoc_ne f.vars name name2 v hne, ih]
    · rw [if_neg hv]
      simp only [GetVariable]
      rw [ih]

/-- C8: (1) a `var` declaration inside a nested block writes only the
block's fresh child frame, which is dropped when the block exits: the
enclosing chain — every binding of every enclosing scope — comes back
exactly unchanged; (2) a reassignment inside a nested block is the
reassignment loop run over the child chain, and the child frame is dropped:
the enclosing chain comes back with `reassignLitSpec` applied; (3) when
some enclosing scope defines the name, the name observably resolves to the
new value from the enclosing chain after the block exits; (4) every other
name resolves exactly as before the block ran. -/
theorem C8_block_scoping :
    (∀ (fuel : Nat) (id : Identifier) (n : Int) (env : Env),
      evalStatement (fuel + 5) (.SBlock [.SVariable id (.EInteger n) true]) env
        = .ok (none, env)) ∧
    (∀ (fuel : Nat) (id : Identifier) (n : Int) (env : Env), env.length < fuel →
      evalStatement (fuel + 6) (.SBlock [.SVariable id (.EInteger n) false]) env
        = .ok (none, reassignLitSpec id.Tok.Value (some (.VInt n)) env)) ∧
    (∀ (name : String) (n : Int) (env : Env), (GetVariable env name).isSome →
      GetVariable (reassignLitSpec name (some (.VInt n)) env) name = some (some (.VInt n))) ∧
    (∀ (name name2 : String) (n : Int) (env : Env), name2 ≠ name →
      GetVariable (reassignLitSpec name (some (.VInt n)) env) name2
        = GetVariable env name2) := by
  refine ⟨?_, ?_, ?_, ?_⟩
  · intro fuel id n env
    have e1 : fuel + 5 = (fuel + 4) + 1 := by omega
    have e2 : fuel + 4 = (fuel + 3) + 1 := by omega
    have e3 : fuel + 3 = (fuel + 2) + 1 := by omega
    have e4 : fuel + 2 = (fuel + 1) + 1 := by omega
    rw [e1, evalStatement, e2, evalBlock, e3, evalStatement, e4, evalVariable]
    simp [evalExpression, bind_ok, pure_ok, evalBlock, setVariableHead, dropFrame]
    all_goals exact fun h2 => Stmt.noConfusion h2
  · intro fuel id n env h
    have e1 : fuel + 6 = (fuel + 5) + 1 := by omega
    have e2 : fuel + 5 = (fuel + 4) + 1 := by omega
    have e3 : fuel + 4 = (fuel + 3) + 1 := by omega
    have hlen : (NewScopeFrame :: env).length ≤ fuel := by simpa using h
    rw [e1, evalStatement, e2, evalBlock, e3, evalStatement]
    rw [show fuel + 3 = (fuel + 2) + 1 by omega, evalVariable]
    simp only [Bool.false_eq_true, if_neg, ite_false,
      assignLoop_int_lit id.Tok.Value n (NewScopeFrame :: env) fuel hlen, bind_ok, pure_ok]
    rw [reassignLitSpec]
    by_cases hv : (GetVariable (NewScopeFrame :: env) id.Tok.Value).isSome
    · simp [hv, bind_ok, pure_ok, evalBlock, dropFrame]
    · simp [hv, bind_ok, pure_ok, evalBlock, dropFrame]
    all_goals exact fun h2 => Stmt.noConfusion h2
  · intro name n env h
    exact GetVariable_reassignLitSpec_found name (some (.VInt n)) env h
  · intro name name2 n env hne
    exact GetVariable_reassignLitSpec_other name name2 (some (.VInt n)) hne env

/-- Witness for C8 at concrete inputs: a declaration and a reassignment of
`x` inside a nested block over the chain that binds `x ↦ 1` and `z ↦ 5` in
the enclosing (root) scope. -/
theorem C8_block_scoping_witness :
    (evalStatement 5 (.SBlock [.SVariable ⟨⟨.IDENT, "x"⟩, false⟩ (.EInteger 9) true])
        [⟨[("x", some (.VInt 1)), ("z", some (.VInt 5))], []⟩]
      = .ok (none, [⟨[("x", some (.VInt 1)), ("z", some (.VInt 5))], []⟩])) ∧
    (evalStatement 8 (.SBlock [.SVariable ⟨⟨.IDENT, "x"⟩, false⟩ (.EInteger 9) false])
        [⟨[("x", some (.VInt 1)), ("z", some (.VInt 5))], []⟩]
      = .ok (none, reassignLitSpec "x" (some (.VInt 9))
          [⟨[("x", some (.VInt 1)), ("z", some (.VInt 5))], []⟩])) ∧
    (GetVariable (reassignLitSpec "x" (some (.VInt 9))
        [⟨[("x", some (.VInt 1)), ("z", some (.VInt 5))], []⟩]) "x"
      = some (some (.VInt 9))) ∧
    (GetVariable (reassignLitSpec "x" (some (.VInt 9))
        [⟨[("x", some (.VInt 1)), ("z", some (.VInt 5))], []⟩]) "z"
      = GetVariable [⟨[("x", some (.VInt 1)), ("z", some (.VInt 5))], []⟩] "z") :=
  ⟨C8_block_scoping.1 0 ⟨⟨.IDENT, "x"⟩, false⟩ 9 _,
    C8_block_scoping.2.1 2 ⟨⟨.IDENT, "x"⟩, false⟩ 9 _ (by decide),
    C8_block_scoping.2.2.1 "x" 9 _ (by decide),
    C8_block_scoping.2.2.2 "x" "z" 9 _ (by decide)⟩

/-! ## Claim C2 -/

/-- Claim-side predicate: the operand types the spec lists as able to take
part in some binary operation. -/
def supportedOperandType : RVal → Bool
  | some (.VBool _) => true
  | some (.VInt _) => true
  | some (.VFloat _) => true
  | some (.VString _) => true
  | _ => false

/-- Claim-side predicate: the operand-type pairs the spec lists as
supported. -/
def pairSupported : RVal → RVal → Bool
  | some (.VBool _), some (.VBool _) => true
  | some (.VInt _), some (.VInt _) => true
  | some (.VInt _), some (.VFloat _) => true
  | some (.VFloat _), some (.VInt _) => true
  | some (.VFloat _), some (.VFloat _) => true
  | some (.VString _), some (.VString _) => true
  | _, _ => false

set_option maxHeartbeats 2000000 in
/-- C2: binary operations dispatch on the runtime type pair of the
operands and support exactly the claimed table. (1) bool×bool yields a
value exactly for `==`, `!=`, `or`, `and`; (2) int×int yields a value
exactly for the six comparisons and four arithmetic operators (divisor
nonzero for `/`), never a fault otherwise; (3,4) int×float and float×int
equal the float×float operation applied after promoting the int operand,
arm by arm; (5) float×float yields a value exactly for the comparison and
arithmetic operators; (6) string×string yields a value exactly for `+`;
(7) a left operand whose type is outside the table makes the whole binary
expression yield nil silently (and the chain of the left evaluation is
returned); (8) a supported left operand paired with a right operand that
does not form a supported pair also yields nil silently, with no fault. -/
theorem C2_binary_dispatch :
    (∀ (a b : Bool) (op : Token),
      (evalBinaryOperationBoolBool a b op).isSome
        ↔ op.Ty ∈ [TokenType.EQ, .NEQ, .OR, .AND]) ∧
    (∀ (a b : Int) (op : Token), (op.Ty = .SLASH → b ≠ 0) →
      ∃ r, evalBinaryOperationIntInt a b op = .ok r ∧
        (r.isSome ↔ op.Ty ∈ [TokenType.LT, .GT, .LEQ, .GEQ, .EQ, .NEQ,
          .PLUS, .MINUS, .ASTERISK, .SLASH])) ∧
    (∀ (a : Int) (b : Rat) (op : Token),
      evalBinaryOperationIntFloat a b op = evalBinaryOperationFloatFloat (a : Rat) b op) ∧
    (∀ (a : Rat) (b : Int) (op : Token),
      evalBinaryOperationFloatInt a b op = evalBinaryOperationFloatFloat a (b : Rat) op) ∧
    (∀ (a b : Rat) (op : Token),
      (evalBinaryOperationFloatFloat a b op).isSome
        ↔ op.Ty ∈ [TokenType.LT, .GT, .LEQ, .GEQ, .EQ, .NEQ,
          .PLUS, .MINUS, .ASTERISK, .SLASH]) ∧
    (∀ (a b : String) (op : Token),
      (evalBinaryOperationStringString a b op).isSome ↔ op.Ty = .PLUS) ∧
    (∀ (fuel : Nat) (op : Token) (l r : Expr) (env env1 : Env) (lv : RVal),
      evalExpression fuel l env = .ok (lv, env1) → supportedOperandType lv = false →
      evalExpression (fuel + 1) (.EBinaryOperation op l r) env = .ok (none, env1)) ∧
    (∀ (fuel : Nat) (op : Token) (l r : Expr) (env env1 env2 : Env) (lv rv : RVal),
      evalExpression fuel l env = .ok (lv, env1) →
      evalExpression fuel r env1 = .ok (rv, env2) →
      supportedOperandType lv = true → pairSupported lv rv = false →
      evalExpression (fuel + 1) (.EBinaryOperation op l r) env = .ok (none, env2)) := by
  refine ⟨?_, ?_, ?_, ?_, ?_, ?_, ?_, ?_⟩
  · intro a b op
    obtain ⟨ty, val⟩ := op
    cases ty <;> simp [evalBinaryOperationBoolBool]
  · intro a b op h
    obtain ⟨ty, val⟩ := op
    cases ty <;>
      first
      | exact ⟨_, rfl, by simp⟩
      | (refine ⟨some (.VInt (a.tdiv b)), ?_, by simp⟩
         simp [evalBinaryOperationIntInt, h rfl, pure_ok])
  · intro a b op
    obtain ⟨ty, val⟩ := op
    cases ty <;> rfl
  · intro a b op
    obtain ⟨ty2, val⟩ := op
    cases ty2 <;> rfl
  · intro a b op
    obtain ⟨ty, val⟩ := op
    cases ty <;> simp [evalBinaryOperationFloatFloat]
  · intro a b op
    obtain ⟨ty, val⟩ := op
    cases ty <;> simp [evalBinaryOperationStringString]
  · intro fuel op l r env env1 lv h1 hsup
    rcases lv with _ | vl
    · simp [evalExpression, h1, bind_ok, pure_ok]
    · cases vl <;>
        first
        | (simp only [supportedOperandType] at hsup; exact Bool.noConfusion hsup)
        | simp [evalExpression, h1, bind_ok, pure_ok]
  · intro fuel op l r env env1 env2 lv rv h1 h2 hsup hpair
    rcases lv with _ | vl
    · simp only [supportedOperandType] at hsup
      exact Bool.noConfusion hsup
    · rcases rv with _ | vr
      · cases vl <;>
          first
          | (simp only [supportedOperandType] at hsup; exact Bool.noConfusion hsup)
          | simp [evalExpression, h1, h2, bind_ok, pure_ok]
      · cases vl <;> cases vr <;>
          first
          | (simp only [supportedOperandType] at hsup; exact Bool.noConfusion hsup)
          | (simp only [pairSupported] at hpair; exact Bool.noConfusion hpair)
          | simp [evalExpression, h1, h2, bind_ok, pure_ok]

/-- Witness for C2 at concrete inputs: a nil left operand (unsupported
type) with an integer right operand, and an integer left operand with a
string right operand — both yield nil with no fault. -/
theorem C2_binary_dispatch_witness :
    (evalExpression 2 (.EBinaryOperation ⟨.PLUS, "+"⟩ .ENil (.EInteger 1)) [NewScopeFrame]
      = .ok (none, [NewScopeFrame])) ∧
    (evalExpression 2 (.EBinaryOperation ⟨.PLUS, "+"⟩ (.EInteger 1) (.EString "a"))
        [NewScopeFrame]
      = .ok (none, [NewScopeFrame])) :=
  ⟨C2_binary_dispatch.2.2.2.2.2.2.1 1 ⟨.PLUS, "+"⟩ .ENil (.EInteger 1)
      [NewScopeFrame] [NewScopeFrame] none rfl rfl,
    C2_binary_dispatch.2.2.2.2.2.2.2 1 ⟨.PLUS, "+"⟩ (.EInteger 1) (.EString "a")
      [NewScopeFrame] [NewScopeFrame] [NewScopeFrame] (some (.VInt 1)) (some (.VString "a"))
      rfl rfl rfl rfl⟩

/-! ## Claim C3 -/

/-- C3: the parser's precedence table maps the infix operators to the
ascending levels LOWEST < EQUALS (`==`,`!=`) < BOOLOP (`or`,`and`) <
GREATER (`<`,`>`,`<=`,`>=`) < SUM (`+`,`-`) < PRODUCT (`*`,`/`) < the
prefix level; the infix loop consumes an operator only while its
precedence strictly exceeds the current floor (when it does not exceed it,
the loop returns the accumulated left expression with the parser state
untouched); and the source `(1 + 2) * 3` parses to a tree whose outermost
operator is `*` and whose left operand is the `+` subtree. -/
theorem C3_precedence_climbing :
    (getPrecedence .EQ = EQUALS ∧ getPrecedence .NEQ = EQUALS ∧
     getPrecedence .OR = BOOLOP ∧ getPrecedence .AND = BOOLOP ∧
     getPrecedence .LT = GREATER ∧ getPrecedence .GT = GREATER ∧
     getPrecedence .LEQ = GREATER ∧ getPrecedence .GEQ = GREATER ∧
     getPrecedence .PLUS = SUM ∧ getPrecedence .MINUS = SUM ∧
     getPrecedence .ASTERISK = PRODUCT ∧ getPrecedence .SLASH = PRODUCT) ∧
    (LOWEST < EQUALS ∧ EQUALS < BOOLOP ∧ BOOLOP < GREATER ∧ GREATER < SUM ∧
     SUM < PRODUCT ∧ PRODUCT < PrefixLevel) ∧
    (∀ (fuel prec : Nat) (left : Option Expr) (p : Parser),
      getPrecedence p.currentToken.Ty ≤ prec →
      parseBinLoop (fuel + 1) prec left p = .ok (left, p)) ∧
    (runParse "(1 + 2) * 3"
      = .ok [.SExpression (.EBinaryOperation ⟨.ASTERISK, "*"⟩
          (.EBinaryOperation ⟨.PLUS, "+"⟩ (.EInteger 1) (.EInteger 2)) (.EInteger 3))]) := by
  refine ⟨⟨rfl, rfl, rfl, rfl, rfl, rfl, rfl, rfl, rfl, rfl, rfl, rfl⟩,
    ⟨by decide, by decide, by decide, by decide, by decide, by decide⟩, ?_, rfl⟩
  intro fuel prec left p h
  rw [parseBinLoop, if_neg (Nat.not_lt.mpr h)]
  rfl

/-- Witness for C3 at a concrete input: with the floor at LOWEST and the
current token EOF (precedence LOWEST, not exceeding the floor), the infix
loop consumes nothing. -/
theorem C3_precedence_climbing_witness :
    parseBinLoop 1 LOWEST (some (.EInteger 1)) (initParser [⟨.EOF, ""⟩])
      = .ok (some (.EInteger 1), initParser [⟨.EOF, ""⟩]) :=
  C3_precedence_climbing.2.2.1 0 LOWEST (some (.EInteger 1)) (initParser [⟨.EOF, ""⟩])
    (by decide)

/-! ## Claim C5 -/

/-- C5: a call whose function name is not registered anywhere in the scope
chain yields nil with the chain unchanged (the arguments are not even
evaluated) — no diagnostic, no fault; so does a call whose argument count
differs from the found function's parameter count; otherwise the arguments
are evaluated in the call-site scope and the body is evaluated in a fresh
scope whose parent is the call-site scope with each parameter bound to the
corresponding argument value; concretely, after `fn sum(a,b) \x7b return
a + b \x7d` the call `sum(1,2)` evaluates to the integer 3. -/
theorem C5_call_semantics :
    (∀ (fuel : Nat) (id : Identifier) (args : List Expr) (env : Env),
      GetFunction env id.Tok.Value = none →
      evalCall (fuel + 1) id args env = .ok (none, env)) ∧
    (∀ (fuel : Nat) (id : Identifier) (args : List Expr) (env : Env) (fn : Function),
      GetFunction env id.Tok.Value = some fn →
      fn.Parameters.length ≠ args.length →
      evalCall (fuel + 1) id args env = .ok (none, env)) ∧
    (∀ (fuel : Nat) (id : Identifier) (args : List Expr) (env env1 envB : Env)
        (fn : Function) (vals : List RVal) (rv : RVal),
      GetFunction env id.Tok.Value = some fn →
      fn.Parameters.length = args.length →
      evalExprList fuel args env = .ok (vals, env1) →
      evalBlock fuel fn.Body (bindParams fn.Parameters vals NewScopeFrame :: env1)
        = .ok (rv, envB) →
      evalCall (fuel + 1) id args env = .ok (dropFrame (rv, envB))) ∧
    (run "fn sum(a, b) \x7b return a + b \x7d sum(1, 2)" 100 = .ok (some (.VInt 3))) := by
  refine ⟨?_, ?_, ?_, rfl⟩
  · intro fuel id args env h
    simp [evalCall, h, pure_ok]
  · intro fuel id args env fn h1 h2
    simp [evalCall, h1, h2, pure_ok]
  · intro fuel id args env env1 envB fn vals rv h1 h2 h3 h4
    simp [evalCall, h1, h2, h3, h4, bind_ok, pure_ok]

/-- Witness for C5 at concrete inputs: calling unregistered `f`; calling a
zero-parameter `f` with one argument; calling a zero-parameter `f` whose
body is empty. -/
theorem C5_call_semantics_witness :
    (evalCall 1 ⟨⟨.IDENT, "f"⟩, true⟩ [] [NewScopeFrame] = .ok (none, [NewScopeFrame])) ∧
    (evalCall 1 ⟨⟨.IDENT, "f"⟩, true⟩ [.EInteger 1]
        [⟨[], [("f", ⟨⟨⟨.IDENT, "f"⟩, true⟩, [], []⟩)]⟩]
      = .ok (none, [⟨[], [("f", ⟨⟨⟨.IDENT, "f"⟩, true⟩, [], []⟩)]⟩])) ∧
    (evalCall 2 ⟨⟨.IDENT, "f"⟩, true⟩ []
        [⟨[], [("f", ⟨⟨⟨.IDENT, "f"⟩, true⟩, [], []⟩)]⟩]
      = .ok (dropFrame ((none : RVal),
          [NewScopeFrame, ⟨[], [("f", ⟨⟨⟨.IDENT, "f"⟩, true⟩, [], []⟩)]⟩]))) :=
  ⟨C5_call_semantics.1 0 ⟨⟨.IDENT, "f"⟩, true⟩ [] [NewScopeFrame] rfl,
    C5_call_semantics.2.1 0 ⟨⟨.IDENT, "f"⟩, true⟩ [.EInteger 1]
      [⟨[], [("f", ⟨⟨⟨.IDENT, "f"⟩, true⟩, [], []⟩)]⟩]
      ⟨⟨⟨.IDENT, "f"⟩, true⟩, [], []⟩ rfl (by decide),
    C5_call_semantics.2.2.1 1 ⟨⟨.IDENT, "f"⟩, true⟩ []
      [⟨[], [("f", ⟨⟨⟨.IDENT, "f"⟩, true⟩, [], []⟩)]⟩]
      [⟨[], [("f", ⟨⟨⟨.IDENT, "f"⟩, true⟩, [], []⟩)]⟩]
      [NewScopeFrame, ⟨[], [("f", ⟨⟨⟨.IDENT, "f"⟩, true⟩, [], []⟩)]⟩]
      ⟨⟨⟨.IDENT, "f"⟩, true⟩, [], []⟩ [] none rfl rfl rfl rfl⟩

/-! ## Claim C7 -/

/-- C7: integer division by zero is a fault (`divideByZero`) that aborts
the evaluation, both at the operation level and through a whole binary
expression; with a nonzero divisor int/int division returns the truncated
quotient (`Int.tdiv`, truncation toward zero — witnessed end to end by
`7 / -2` evaluating to -3, not the floor -4); an out-of-range (or
negative) integer index into a sequence is a fault (`indexOutOfRange`),
and an in-range index returns the i-th element; indexing a mapping looks
the key up by value equality: the entry whose key is `keyEq`-equal to the
index value is returned (first conjunct at the expression level, then the
first-match-by-value-equality property of the lookup itself). -/
theorem C7_faults_and_indexing :
    (∀ (a : Int) (op : Token), op.Ty = .SLASH →
      evalBinaryOperationIntInt a 0 op = .error (.fault .divideByZero)) ∧
    (∀ (a b : Int) (op : Token), op.Ty = .SLASH → b ≠ 0 →
      evalBinaryOperationIntInt a b op = .ok (some (.VInt (a.tdiv b)))) ∧
    (∀ (fuel : Nat) (a : Int) (env : Env),
      evalExpression (fuel + 2) (.EBinaryOperation ⟨.SLASH, "/"⟩ (.EInteger a) (.EInteger 0))
        env = .error (.fault .divideByZero)) ∧
    (∀ (fuel : Nat) (idxE subjE : Expr) (arr : List RVal) (i : Int) (env env1 env2 : Env),
      evalExpression fuel subjE env = .ok (some (.VArray arr), env1) →
      evalExpression fuel idxE env1 = .ok (some (.VInt i), env2) →
      ¬(0 ≤ i ∧ i < (arr.length : Int)) →
      evalExpression (fuel + 1) (.EIndex idxE subjE) env = .error (.fault .indexOutOfRange)) ∧
    (∀ (fuel : Nat) (idxE subjE : Expr) (arr : List RVal) (i : Int) (env env1 env2 : Env),
      evalExpression fuel subjE env = .ok (some (.VArray arr), env1) →
      evalExpression fuel idxE env1 = .ok (some (.VInt i), env2) →
      (0 ≤ i ∧ i < (arr.length : Int)) →
      evalExpression (fuel + 1) (.EIndex idxE subjE) env = .ok (arr.getD i.toNat none, env2)) ∧
    (∀ (fuel : Nat) (idxE subjE : Expr) (entries : List (RVal × RVal)) (k : RVal)
        (env env1 env2 : Env),
      evalExpression fuel subjE env = .ok (some (.VMap entries), env1) →
      evalExpression fuel idxE env1 = .ok (k, env2) →
      hashableKey k = true →
      evalExpression (fuel + 1) (.EIndex idxE subjE) env = .ok (mapGetEntries entries k, env2)) ∧
    (∀ (pre post : List (RVal × RVal)) (k v : RVal),
      (∀ p ∈ pre, keyEq p.1 k = false) → keyEq k k = true →
      mapGetEntries (pre ++ (k, v) :: post) k = v) ∧
    (run "7 / -2" 100 = .ok (some (.VInt (-3)))) := by
  refine ⟨?_, ?_, ?_, ?_, ?_, ?_, ?_, rfl⟩
  · intro a op h
    obtain ⟨ty, val⟩ := op
    cases ty <;> simp_all [evalBinaryOperationIntInt, throw_error]
  · intro a b op h hb
    obtain ⟨ty, val⟩ := op
    cases ty <;> simp_all [evalBinaryOperationIntInt, pure_ok]
  · intro fuel a env
    have e1 : fuel + 2 = (fuel + 1) + 1 := by omega
    rw [e1]
    simp [evalExpression, evalBinaryOperationIntInt, bind_ok, pure_ok, throw_error, bind_error]
  · intro fuel idxE subjE arr i env env1 env2 h1 h2 h3
    simp [evalExpression, h1, h2, h3, bind_ok, pure_ok, throw_error]
  · intro fuel idxE subjE arr i env env1 env2 h1 h2 h3
    simp [evalExpression, h1, h2, h3, bind_ok, pure_ok]
  · intro fuel idxE subjE entries k env env1 env2 h1 h2 h3
    simp [evalExpression, h1, h2, mapGet, h3, bind_ok, pure_ok]
  · intro pre post k v hpre hkk
    induction pre with
    | nil => rw [List.nil_append, mapGetEntries, if_pos hkk]
    | cons p rest ih =>
      rw [List.cons_append, mapGetEntries, if_neg]
      · exact ih (fun q hq => hpre q (List.mem_cons_of_mem p hq))
      · simp [hpre p (List.mem_cons_self p rest)]

/-- Witness for C7 at concrete inputs: `10/4` truncates, indexing `[7]` at
5 faults, at 0 yields 7, and indexing the map `(1 ↦ 9)` with key 1 yields
9 while the lookup property holds for that entry list. -/
theorem C7_faults_and_indexing_witness :
    (evalBinaryOperationIntInt 10 0 ⟨.SLASH, "/"⟩ = .error (.fault .divideByZero)) ∧
    (evalBinaryOperationIntInt 10 4 ⟨.SLASH, "/"⟩ = .ok (some (.VInt (Int.tdiv 10 4)))) ∧
    (evalExpression 4 (.EIndex (.EInteger 5) (.EArray [.EInteger 7])) [NewScopeFrame]
      = .error (.fault .indexOutOfRange)) ∧
    (evalExpression 4 (.EIndex (.EInteger 0) (.EArray [.EInteger 7])) [NewScopeFrame]
      = .ok ([some (Value.VInt 7)].getD (Int.toNat 0) none, [NewScopeFrame])) ∧
    (evalExpression 4 (.EIndex (.EInteger 1) (.EMap [(.EInteger 1, .EInteger 9)]))
        [NewScopeFrame]
      = .ok (mapGetEntries [(some (.VInt 1), some (.VInt 9))] (some (.VInt 1)),
          [NewScopeFrame])) ∧
    (mapGetEntries ([] ++ (some (.VInt 1), some (.VInt 9)) :: []) (some (.VInt 1))
      = some (.VInt 9)) :=
  ⟨C7_faults_and_indexing.1 10 ⟨.SLASH, "/"⟩ rfl,
    C7_faults_and_indexing.2.1 10 4 ⟨.SLASH, "/"⟩ rfl (by decide),
    C7_faults_and_indexing.2.2.2.1 3 (.EInteger 5) (.EArray [.EInteger 7])
      [some (.VInt 7)] 5 [NewScopeFrame] [NewScopeFrame] [NewScopeFrame] rfl rfl (by decide),
    C7_faults_and_indexing.2.2.2.2.1 3 (.EInteger 0) (.EArray [.EInteger 7])
      [some (.VInt 7)] 0 [NewScopeFrame] [NewScopeFrame] [NewScopeFrame] rfl rfl (by decide),
    C7_faults_and_indexing.2.2.2.2.2.1 3 (.EInteger 1) (.EMap [(.EInteger 1, .EInteger 9)])
      [(some (.VInt 1), some (.VInt 9))] (some (.VInt 1))
      [NewScopeFrame] [NewScopeFrame] [NewScopeFrame] rfl rfl rfl,
    C7_faults_and_indexing.2.2.2.2.2.2.1 [] [] (some (.VInt 1)) (some (.VInt 9))
      (fun p hp => absurd hp (List.not_mem_nil p)) rfl⟩

/-! ## Claim C9 -/

/-- C9: `len` of a string, array or map produces a host-int value
(`VGoInt` — Go `int`, with string length counted in bytes), and the key
variable of a for-each over a string or array is likewise a host int
(demonstrated end to end: `return k` from inside the loops yields
`VGoInt 0`), whereas integer literals evaluate to `int64` (`VInt`);
because the binary-operation dispatch has no case for the host int type,
any binary operation whose left or right operand is a host int silently
yields nil — concretely `len("abc") + 1` evaluates to no value. -/
theorem C9_hostint_int64_mismatch :
    (∀ (s : String), evalLenVal (some (.VString s)) = some (.VGoInt s.utf8ByteSize)) ∧
    (∀ (items : List RVal), evalLenVal (some (.VArray items)) = some (.VGoInt items.length)) ∧
    (∀ (entries : List (RVal × RVal)),
      evalLenVal (some (.VMap entries)) = some (.VGoInt entries.length)) ∧
    (run "for k, v in [10, 20] \x7b return k \x7d" 100 = .ok (some (.VGoInt 0))) ∧
    (run "for k, v in \x22ab\x22 \x7b return k \x7d" 100 = .ok (some (.VGoInt 0))) ∧
    (run "7" 100 = .ok (some (.VInt 7))) ∧
    (∀ (fuel : Nat) (op : Token) (l r : Expr) (env env1 : Env) (a : Int),
      evalExpression fuel l env = .ok (some (.VGoInt a), env1) →
      evalExpression (fuel + 1) (.EBinaryOperation op l r) env = .ok (none, env1)) ∧
    (∀ (fuel : Nat) (op : Token) (l r : Expr) (env env1 env2 : Env) (a b : Int),
      evalExpression fuel l env = .ok (some (.VInt a), env1) →
      evalExpression fuel r env1 = .ok (some (.VGoInt b), env2) →
      evalExpression (fuel + 1) (.EBinaryOperation op l r) env = .ok (none, env2)) ∧
    (run "len(\x22abc\x22) + 1" 100 = .ok none) := by
  refine ⟨fun s => rfl, fun items => rfl, fun entries => rfl, rfl, rfl, rfl, ?_, ?_, rfl⟩
  · intro fuel op l r env env1 a h1
    simp [evalExpression, h1, bind_ok, pure_ok]
  · intro fuel op l r env env1 env2 a b h1 h2
    simp [evalExpression, h1, h2, bind_ok, pure_ok]

/-- Witness for C9 at concrete inputs: `len("ab")` (a host int) on the
left of `+ 1`, and `1 + len("ab")` — both nil. -/
theorem C9_hostint_int64_mismatch_witness :
    (evalExpression 3 (.EBinaryOperation ⟨.PLUS, "+"⟩ (.ELen (.EString "ab")) (.EInteger 1))
        [NewScopeFrame]
      = .ok (none, [NewScopeFrame])) ∧
    (evalExpression 3 (.EBinaryOperation ⟨.PLUS, "+"⟩ (.EInteger 1) (.ELen (.EString "ab")))
        [NewScopeFrame]
      = .ok (none, [NewScopeFrame])) :=
  ⟨C9_hostint_int64_mismatch.2.2.2.2.2.2.1 2 ⟨.PLUS, "+"⟩ (.ELen (.EString "ab"))
      (.EInteger 1) [NewScopeFrame] [NewScopeFrame] 2 rfl,
    C9_hostint_int64_mismatch.2.2.2.2.2.2.2.1 2 ⟨.PLUS, "+"⟩ (.EInteger 1)
      (.ELen (.EString "ab")) [NewScopeFrame] [NewScopeFrame] [NewScopeFrame] 1 2 rfl rfl⟩

end Uni
